import Mathlib

/-!
Verification development for the RAPter primitive-geometry core:
the `LinePrimitive` model (`src/globOpt/include/globfit2/primitives/linePrimitive.h`)
and the correspondence matcher (`src/globOpt/src/correspondence.cpp`).

Scalars are modelled as real numbers (the C++ code computes with `float`/`double`;
we work with exact reals, the standard idealisation).  Eigen vector operations
(`dot`, `cross`, `norm`, `normalized`, rotation about the global up axis) are
translated component-wise from their mathematical definitions.
-/

set_option linter.unusedVariables false

noncomputable section

/-- Three-dimensional vector (Eigen `Matrix<Scalar,3,1>`) with real coordinates. -/
structure Vec3 where
  x : ℝ
  y : ℝ
  z : ℝ

/-- Componentwise addition. -/
def Vec3.add (a b : Vec3) : Vec3 := ⟨a.x + b.x, a.y + b.y, a.z + b.z⟩

/-- Componentwise subtraction. -/
def Vec3.sub (a b : Vec3) : Vec3 := ⟨a.x - b.x, a.y - b.y, a.z - b.z⟩

/-- Scalar multiple. -/
def Vec3.smul (c : ℝ) (v : Vec3) : Vec3 := ⟨c * v.x, c * v.y, c * v.z⟩

instance : Add Vec3 := ⟨Vec3.add⟩
instance : Sub Vec3 := ⟨Vec3.sub⟩
instance : SMul ℝ Vec3 := ⟨Vec3.smul⟩
instance : Inhabited Vec3 := ⟨⟨0, 0, 0⟩⟩

/-- Euclidean inner product (Eigen `dot`). -/
def Vec3.dot (a b : Vec3) : ℝ := a.x * b.x + a.y * b.y + a.z * b.z

/-- Cross product (Eigen `cross`). -/
def Vec3.cross (a b : Vec3) : Vec3 :=
  ⟨a.y * b.z - a.z * b.y, a.z * b.x - a.x * b.z, a.x * b.y - a.y * b.x⟩

/-- Euclidean norm (Eigen `norm`). -/
def Vec3.norm (v : Vec3) : ℝ := Real.sqrt (v.dot v)

/-- Unit-normalised copy (Eigen `normalized`): the vector divided by its norm. -/
def Vec3.normalized (v : Vec3) : Vec3 := Vec3.smul (v.norm)⁻¹ v

/-- Rotation of a vector by angle `θ` about the global up axis, the semantics of
`Eigen::AngleAxisf(θ, Direction::UnitZ()) * v` used by `generateFrom`. -/
def Vec3.rotZ (θ : ℝ) (v : Vec3) : Vec3 :=
  ⟨Real.cos θ * v.x - Real.sin θ * v.y,
   Real.sin θ * v.x + Real.cos θ * v.y,
   v.z⟩

/-- Modelled from the spec: the `STATUS` tag value `UNSET` ("not-yet-evaluated
candidate").  The defining header `primitives/primitive.h` is not under `src/`;
the concrete integer is irrelevant to every claim, only the symbolic value matters. -/
def UNSET : ℤ := -1

/-- C standard success code, as returned by `getExtent`. -/
def EXIT_SUCCESS : ℕ := 0

/-- C standard failure code, the `NoInliers` signal of `getExtent`. -/
def EXIT_FAILURE : ℕ := 1

/-- Shallow embedding of `GF2::LinePrimitive`.  The source stores a 6-vector of
coefficients with `pos()` reading the first three and `dir()` the second three;
we store the two 3-vectors directly.  The integer tags (`GID`, `DIR_GID`,
`STATUS`) and the write-once extent cache `_extents` live in the base class
`Primitive<2,6>` whose header is not under `src/`; they are modelled from the
spec: a tag is an integer keyed by its role, and the cache is an optional list
of endpoints whose "computed" flag is `Option.isSome`. -/
structure LinePrimitive where
  pos : Vec3
  dir : Vec3
  gid : ℤ
  dirGid : ℤ
  status : ℤ
  extents : Option (List Vec3)

/-- The `LinePrimitive(p0, dir)` constructor: keeps the position and stores the
normalised direction.  Tags take base-class defaults (modelled as `0`; no claim
depends on them) and the extent cache starts unpopulated. -/
def LinePrimitive.ofPosDir (p0 d : Vec3) : LinePrimitive :=
  ⟨p0, d.normalized, 0, 0, 0, none⟩

/-- Point-to-line distance, `LinePrimitive::getDistance`: the norm of the cross
product of `pos() - point` with `dir()`. -/
def LinePrimitive.getDistance (l : LinePrimitive) (point : Vec3) : ℝ :=
  ((l.pos - point).cross l.dir).norm

/-- Orthogonal projection of a point onto the line,
`LinePrimitive::projectPoint`.  The source computes in homogeneous 4-vectors
whose fourth coordinate is `0` throughout, which coincides with the 3-vector
computation `pos + k * dir` with `k = (pt . dir - pos . dir) / (dir . dir)`. -/
def LinePrimitive.projectPoint (l : LinePrimitive) (point : Vec3) : Vec3 :=
  l.pos + ((point.dot l.dir - l.pos.dot l.dir) / l.dir.dot l.dir) • l.dir

/-- Modelled from the spec: a `PointPrimitive` (its header is not under `src/`)
carries 3-D coordinates and integer group tags; `gid` is the primary group tag
(`GID`, bound to `PNT_GID_B` in the matcher) and `gidA` the second independent
tag (`USER_ID1`, read as `PNT_GID_A`). -/
structure PointPrimitive where
  pos : Vec3
  gid : ℤ
  gidA : ℤ

instance : Inhabited PointPrimitive := ⟨⟨⟨0, 0, 0⟩, 0, 0⟩⟩

/-- Position of the point with index `pid` in the cloud (`cloud[pid].pos()`). -/
def pointPos (cloud : List PointPrimitive) (pid : ℕ) : Vec3 :=
  (cloud.getD pid default).pos

/-- Point id selected by loop counter `i`: `indices ? (*indices)[i] : i`. -/
def pidAt (indices : Option (List ℕ)) (i : ℕ) : ℕ :=
  match indices with
  | some idx => idx.getD i 0
  | none => i

/-- Inlier selection loop of `getExtent`: the ids, among the first `stop_at`
candidates (all of `cloud`, or the ids listed in `indices`), whose point-to-line
distance is strictly below `threshold`. -/
def LinePrimitive.inlierIds (l : LinePrimitive) (cloud : List PointPrimitive)
    (threshold : ℝ) (indices : Option (List ℕ)) : List ℕ :=
  let stopAt : ℕ := match indices with
    | some idx => idx.length
    | none => cloud.length
  ((List.range stopAt).map (pidAt indices)).filter
    (fun pid => decide (l.getDistance (pointPos cloud pid) < threshold))

/-- Projected inlier cloud of `getExtent` (`on_line_cloud`). -/
def LinePrimitive.onLineCloud (l : LinePrimitive) (cloud : List PointPrimitive)
    (threshold : ℝ) (indices : Option (List ℕ)) : List Vec3 :=
  (l.inlierIds cloud threshold indices).map (fun pid => l.projectPoint (pointPos cloud pid))

/-- State of the min-max scan in `getExtent`:
`(min_dist, min_id, max_dist, max_id)`. -/
structure ScanState where
  minDist : ℝ
  minId : ℕ
  maxDist : ℝ
  maxId : ℕ

/-- One iteration of the min-max scan: strictly smaller values replace the
minimum, otherwise strictly larger values replace the maximum. -/
def scanStep (st : ScanState) (iv : ℕ × ℝ) : ScanState :=
  if iv.2 < st.minDist then { st with minDist := iv.2, minId := iv.1 }
  else if iv.2 > st.maxDist then { st with maxDist := iv.2, maxId := iv.1 }
  else st

/-- Signed scan value of the projected point at index `i` relative to the first
projected point `p0`: `dist = (p_i - p_0) . (p_0 + line_dir)`. -/
def LinePrimitive.extentVal (l : LinePrimitive) (cloud : List PointPrimitive)
    (threshold : ℝ) (indices : Option (List ℕ)) (i : ℕ) : ℝ :=
  let pts := l.onLineCloud cloud threshold indices
  ((pts.getD i default) - pts.getD 0 default).dot (pts.getD 0 default + l.dir)

/-- The min-max scan of `getExtent`: starting from
`min_dist = max_dist = 0, min_id = max_id = 0`, fold `scanStep` over the scan
values of the projected points with indices `1 .. size-1`. -/
def LinePrimitive.scanState (l : LinePrimitive) (cloud : List PointPrimitive)
    (threshold : ℝ) (indices : Option (List ℕ)) : ScanState :=
  ((List.range' 1 ((l.onLineCloud cloud threshold indices).length - 1)).map
    (fun i => (i, l.extentVal cloud threshold indices i))).foldl scanStep
    ⟨0, 0, 0, 0⟩

/-- Shallow embedding of `LinePrimitive::getExtent`.  The C++ signature is
`int getExtent(minMax&, cloud, threshold, indices)`; mutation is made explicit:
the result is `(return code, minMax after the call, primitive after the call)`.
A populated cache is returned as is; otherwise inliers are selected, an empty
selection fails with `EXIT_FAILURE` leaving `minMax` and the cache untouched,
and otherwise the two extreme projections found by the min-max scan are
returned and cached. -/
def LinePrimitive.getExtent (l : LinePrimitive) (minMax : List Vec3)
    (cloud : List PointPrimitive) (threshold : ℝ) (indices : Option (List ℕ)) :
    ℕ × List Vec3 × LinePrimitive :=
  match l.extents with
  | some cached => (EXIT_SUCCESS, cached, l)
  | none =>
    if l.inlierIds cloud threshold indices = [] then (EXIT_FAILURE, minMax, l)
    else
      let pts := l.onLineCloud cloud threshold indices
      let st := l.scanState cloud threshold indices
      let mm := [pts.getD st.minId default, pts.getD st.maxId default]
      (EXIT_SUCCESS, mm, { l with extents := some mm })

/-- Modelled from the spec: `processing::getPopulationOf` (its header
`processing/util.hpp` is not under `src/`) collects the indices of all points
whose group tag equals the given `GID`. -/
def getPopulationOf (gid : ℤ) (points : List PointPrimitive) : List ℕ :=
  (List.range points.length).filter (fun i => decide ((points.getD i default).gid = gid))

/-- Shallow embedding of `LinePrimitive::getSpatialSignificance`.  The output
`MatrixDerived& in` is modelled as a 3-vector passed in as `inArg` and returned.
The call to `processing::eigenDecomposition` (not under `src/`) is abstracted by
the parameter `eig`, standing for the entry `eigen_values(0)` it produces for
the given points and population — per the spec, the largest eigenvalue of the
population's spatial covariance.  Faithful to the source, the empty-population
branch prints a diagnostic and writes the `-1` sentinel into `in`
(`in.setConstant(-1)`), and the directly following unconditional
`in.setConstant(0)` then overwrites every entry, after which entry `0` receives
the eigenvalue (or its square root when `return_squared` is false). -/
def LinePrimitive.getSpatialSignificance
    (eig : List PointPrimitive → List ℕ → ℝ) (l : LinePrimitive) (inArg : Vec3)
    (points : List PointPrimitive) (indices : Option (List ℕ))
    (returnSquared : Bool) : Vec3 :=
  let pop : List ℕ := match indices with
    | none => getPopulationOf l.gid points
    | some idx => idx
  let in1 : Vec3 := if pop.isEmpty then ⟨-1, -1, -1⟩ else inArg
  let in2 : Vec3 := ⟨0, 0, 0⟩
  let ev : ℝ := eig points pop
  { in2 with x := if returnSquared then ev else Real.sqrt ev }

/-- Modelled from the spec: `angleInRad` (its utility header is not under
`src/`) is the standard vector-pair angular distance in radians. -/
def angleInRad (a b : Vec3) : ℝ := Real.arccos (a.dot b / (a.norm * b.norm))

/-- Shallow embedding of `LinePrimitive::generateFrom`.  The two rotation
candidates `d0`, `d1` rotate `other.dir()` by `+angle` and `-angle` about the
global up axis; `revert` picks `d1` exactly when `d0` is angularly farther from
`self.dir()`; the output primitive is built by the normalising constructor at
`self.pos()` and then tagged: `GID` from `self`, `DIR_GID` from `other`,
`STATUS := UNSET`.  The function always returns `true`. -/
def LinePrimitive.generateFrom (self other : LinePrimitive)
    (closestAngleId : ℕ) (angles : List ℝ) (angleMultiplier : ℝ) :
    Bool × LinePrimitive :=
  let angle : ℝ := angles.getD closestAngleId 0 * angleMultiplier
  let d0 := Vec3.rotZ angle other.dir
  let d1 := Vec3.rotZ (-angle) other.dir
  let base := LinePrimitive.ofPosDir self.pos
    (if angleInRad self.dir d0 > angleInRad self.dir d1 then d1 else d0)
  (true, { base with gid := self.gid, dirGid := other.dirGid, status := UNSET })

/-- Modelled from the spec: the two-endpoint `draw` overload hands exactly two
endpoints to the external visualizer (`PCLVisualizer::addLine`, out of scope,
modelled as succeeding) and rejects any other count with `EXIT_FAILURE`. -/
def drawSegment (ps : List Vec3) : ℕ :=
  if ps.length = 2 then EXIT_SUCCESS else EXIT_FAILURE

/-- The do-while retry loop of the extent-consuming `draw` helper.  State is
`(primitive, minMax, tmp_radius, it)`; each iteration runs `getExtent` and
doubles the radius; the loop exits when `minMax` has at least two entries or
when the incremented counter reaches `max_it = 10`.  The result is
`(err of the last getExtent, minMax, it on exit, primitive)`. -/
def drawLoop (cloud : List PointPrimitive) (indices : Option (List ℕ)) :
    LinePrimitive → List Vec3 → ℝ → ℕ → ℕ × List Vec3 × ℕ × LinePrimitive
  | p, minMax, tmpRadius, it =>
    let r := p.getExtent minMax cloud tmpRadius indices
    if r.2.1.length < 2 then
      if it + 1 < 10 then drawLoop cloud indices r.2.2 r.2.1 (tmpRadius * 2) (it + 1)
      else (r.1, r.2.1, it + 1, r.2.2)
    else (r.1, r.2.1, it, r.2.2)
termination_by p mm r it => 10 - it
decreasing_by omega

/-- Shallow embedding of the extent-consuming static `LinePrimitive::draw`.
After the retry loop, if the counter reached `max_it` the endpoints degrade to
the synthetic segment `pos()` to `pos() + dir() / 10`; the endpoints are then
stretched symmetrically and handed to the external visualizer.  The result is
`(err, the two drawn endpoints)`. -/
def LinePrimitive.draw (line : LinePrimitive) (cloud : List PointPrimitive)
    (radius : ℝ) (indices : Option (List ℕ)) (stretch : ℝ) : ℕ × List Vec3 :=
  let r := drawLoop cloud indices line [] radius 0
  let mm : List Vec3 :=
    if 10 ≤ r.2.2.1 then [line.pos, line.pos + (10 : ℝ)⁻¹ • line.dir] else r.2.1
  let p0 := mm.getD 0 default
  let p1 := mm.getD 1 default
  let diff := p1 - p0
  let halfStretch : ℝ := 1 + (stretch - 1) / 2
  let p1Final := p0 + halfStretch • diff
  let p0Final := p1 - halfStretch • diff
  let ps := [p0Final, p1Final]
  (r.1 + drawSegment ps, ps)

/-- Identity of a primitive inside a keyed collection: `(GID, linear id)`,
the `GidLid = std::pair<int,int>` of `correspondence.cpp` (linear ids are the
enumeration indices, hence naturals). -/
abbrev GidLid : Type := ℤ × ℕ

/-- Key of the transient cost table: `(A identity, B identity)`. -/
abbrev CostKey : Type := GidLid × GidLid

/-- Entry of the sortable cost list: `(cost, key)`. -/
abbrev CostEntry : Type := ℝ × CostKey

/-- A primitive collection, `std::map<int, InnerPrimitiveContainerT>`, as the
association list of its entries in ascending key order. -/
abbrev PrimitiveMap : Type := List (ℤ × List LinePrimitive)

/-- Strict `std::pair` ordering on identities (first component, then second). -/
def gidLidLt (a b : GidLid) : Prop := a.1 < b.1 ∨ (a.1 = b.1 ∧ a.2 < b.2)

/-- Strict `std::pair` ordering on cost keys. -/
def costKeyLt (a b : CostKey) : Prop :=
  gidLidLt a.1 b.1 ∨ (a.1 = b.1 ∧ gidLidLt a.2 b.2)

/-- Non-strict lexicographic ordering on cost entries: ascending cost, ties
broken by the natural ordering of the identity-pair key.  `std::sort` with the
default `std::pair` comparison leaves the list sorted by this relation. -/
def costEntryLe (a b : CostEntry) : Prop :=
  a.1 < b.1 ∨ (a.1 = b.1 ∧ (costKeyLt a.2 b.2 ∨ a.2 = b.2))

instance : DecidableRel gidLidLt := fun a b => by unfold gidLidLt; infer_instance

instance : DecidableRel costKeyLt := fun a b => by unfold costKeyLt; infer_instance

instance : DecidableRel costEntryLe := fun a b => by unfold costEntryLe; infer_instance

/-- Insertion into a key-sorted association list, the `std::map` write
`m[k] = v`: insert before the first larger key, overwrite an equal key. -/
def mapInsert {α β : Type} (lt : α → α → Prop) [DecidableRel lt] [DecidableEq α]
    (k : α) (v : β) : List (α × β) → List (α × β)
  | [] => [(k, v)]
  | (k', v') :: rest =>
    if lt k k' then (k, v) :: (k', v') :: rest
    else if k = k' then (k, v) :: rest
    else (k', v') :: mapInsert lt k v rest

/-- Shallow embedding of `correspondence::estimateDistance`: the Euclidean
distance between the two anchor positions (the `points` and tag arguments are
accepted and ignored, as in the source). -/
def estimateDistance (prim gtPrim : LinePrimitive) (points : List PointPrimitive)
    (pntGid gtPntGid : ℤ) : ℝ :=
  (prim.pos - gtPrim.pos).norm

/-- The cost-table construction loop of `correspCli`, flattened to the sequence
of `costs[CostKey(GidLid(gidA,lidA),GidLid(gidB,lidB))] = estimateDistance(..)`
writes it performs: patches of `A` in map order, primitives within a patch in
linear order, then patches and primitives of `B`. -/
def costWrites (A B : PrimitiveMap) (points : List PointPrimitive) :
    List (CostKey × ℝ) :=
  A.flatMap (fun ga =>
    ga.2.enum.flatMap (fun la =>
      B.flatMap (fun gb =>
        gb.2.enum.map (fun lb =>
          (((ga.1, la.1), (gb.1, lb.1)),
           estimateDistance la.2 lb.2 points 0 0)))))

/-- The transient cost map `costs` after all writes. -/
def costMap (A B : PrimitiveMap) (points : List PointPrimitive) :
    List (CostKey × ℝ) :=
  (costWrites A B points).foldl (fun m kv => mapInsert costKeyLt kv.1 kv.2 m) []

/-- The flattened cost list `cost_list` before sorting: one `(cost, key)` entry
per map entry, in map (key) order. -/
def costList (A B : PrimitiveMap) (points : List PointPrimitive) :
    List CostEntry :=
  (costMap A B points).map (fun kv => (kv.2, kv.1))

/-- The cost list after `std::sort(cost_list.begin(), cost_list.end())`:
sorted by cost with ties broken by the identity-pair key. -/
def sortedCostList (A B : PrimitiveMap) (points : List PointPrimitive) :
    List CostEntry :=
  List.insertionSort costEntryLe (costList A B points)

/-- The greedy assignment scan of `correspCli`: walk the sorted cost list once,
accept a pair exactly when both identities are still free, and record accepted
pairs (in acceptance order) while marking both identities as taken. -/
def greedy : List GidLid → List GidLid → List CostEntry → List (GidLid × GidLid)
  | _, _, [] => []
  | takenA, takenB, e :: rest =>
    if e.2.1 ∉ takenA ∧ e.2.2 ∉ takenB then
      (e.2.1, e.2.2) :: greedy (e.2.1 :: takenA) (e.2.2 :: takenB) rest
    else greedy takenA takenB rest

/-- The accepted assignments of the matcher, in acceptance (ascending cost)
order. -/
def acceptedPairs (A B : PrimitiveMap) (points : List PointPrimitive) :
    List (GidLid × GidLid) :=
  greedy [] [] (sortedCostList A B points)

/-- The assignment map `corresps`: a `std::map<GidLid, GidLid>` receiving
`corresps[gidLidA] = gidLidB` at each acceptance. -/
def corresps (A B : PrimitiveMap) (points : List PointPrimitive) :
    List (GidLid × GidLid) :=
  (acceptedPairs A B points).foldl (fun m p => mapInsert gidLidLt p.1 p.2 m) []

/-- The emission loop of `correspCli` walks `corresps` from `begin()` to
`end()`, i.e. in ascending key order, writing one `gidA,lidA,gidB,lidB` row per
entry; the emitted rows are therefore exactly the `corresps` entries in map
order. -/
def emittedRows (A B : PrimitiveMap) (points : List PointPrimitive) :
    List (GidLid × GidLid) :=
  corresps A B points

/-- Lookup of a primitive by identity: find the group with the given `GID`,
then index into its primitive sequence. -/
def primAt (m : PrimitiveMap) (gl : GidLid) : Option LinePrimitive :=
  match m.find? (fun ga => decide (ga.1 = gl.1)) with
  | none => none
  | some ga => ga.2.get? gl.2

/-! Basic vector lemmas. -/

@[simp]
theorem Vec3.add_def (a b : Vec3) : a + b = ⟨a.x + b.x, a.y + b.y, a.z + b.z⟩ := rfl

@[simp]
theorem Vec3.sub_def (a b : Vec3) : a - b = ⟨a.x - b.x, a.y - b.y, a.z - b.z⟩ := rfl

@[simp]
theorem Vec3.smul_def (c : ℝ) (v : Vec3) : c • v = ⟨c * v.x, c * v.y, c * v.z⟩ := rfl

theorem Vec3.ext_iff' {a b : Vec3} : a = b ↔ a.x = b.x ∧ a.y = b.y ∧ a.z = b.z := by
  constructor
  · rintro rfl; exact ⟨rfl, rfl, rfl⟩
  · rcases a with ⟨ax, ay, az⟩
    rcases b with ⟨bx, by', bz⟩
    rintro ⟨h1, h2, h3⟩
    simp_all

theorem Vec3.dot_comm (a b : Vec3) : a.dot b = b.dot a := by
  unfold Vec3.dot; ring

theorem Vec3.sub_self_dot (a w : Vec3) : (a - a).dot w = 0 := by
  simp [Vec3.dot]

theorem Vec3.rotZ_dot_self (θ : ℝ) (v : Vec3) :
    (Vec3.rotZ θ v).dot (Vec3.rotZ θ v) = v.dot v := by
  unfold Vec3.rotZ Vec3.dot
  simp only
  have h := Real.sin_sq_add_cos_sq θ
  nlinarith [h]

theorem Vec3.rotZ_norm (θ : ℝ) (v : Vec3) : (Vec3.rotZ θ v).norm = v.norm := by
  unfold Vec3.norm
  rw [Vec3.rotZ_dot_self]

theorem Vec3.normalized_of_norm_one {v : Vec3} (h : v.norm = 1) :
    v.normalized = v := by
  unfold Vec3.normalized
  rw [h]
  rcases v with ⟨vx, vy, vz⟩
  simp [Vec3.smul]

theorem angleInRad_comm (a b : Vec3) : angleInRad a b = angleInRad b a := by
  unfold angleInRad
  rw [Vec3.dot_comm, mul_comm]

/-! Lemmas about the extent machinery. -/

theorem getExtent_of_cache {l : LinePrimitive} {cached : List Vec3}
    (h : l.extents = some cached) (minMax : List Vec3)
    (cloud : List PointPrimitive) (threshold : ℝ) (indices : Option (List ℕ)) :
    l.getExtent minMax cloud threshold indices = (EXIT_SUCCESS, cached, l) := by
  unfold LinePrimitive.getExtent
  rw [h]

theorem getExtent_success_cache {l l' : LinePrimitive} {minMax out : List Vec3}
    {cloud : List PointPrimitive} {threshold : ℝ} {indices : Option (List ℕ)}
    (h : l.getExtent minMax cloud threshold indices = (EXIT_SUCCESS, out, l')) :
    l'.extents = some out := by
  unfold LinePrimitive.getExtent at h
  cases hc : l.extents with
  | some cached =>
    rw [hc] at h
    obtain ⟨h1, h2⟩ := Prod.mk.injEq .. ▸ h
    obtain ⟨h3, h4⟩ := Prod.mk.injEq .. ▸ h2
    rw [← h4, hc, h3]
  | none =>
    rw [hc] at h
    by_cases he : l.inlierIds cloud threshold indices = []
    · rw [if_pos he] at h
      exact absurd (congrArg Prod.fst h) (by simp [EXIT_FAILURE, EXIT_SUCCESS])
    · rw [if_neg he] at h
      obtain ⟨h1, h2⟩ := Prod.mk.injEq .. ▸ h
      obtain ⟨h3, h4⟩ := Prod.mk.injEq .. ▸ h2
      rw [← h4, ← h3]

theorem scan_minDist_le (ivs : List (ℕ × ℝ)) (st : ScanState) :
    (ivs.foldl scanStep st).minDist ≤ st.minDist := by
  induction ivs generalizing st with
  | nil => exact le_refl _
  | cons iv ivs ih =>
    refine le_trans (ih (scanStep st iv)) ?_
    unfold scanStep
    split_ifs with h1 h2
    · exact le_of_lt h1
    · exact le_refl _
    · exact le_refl _

theorem scan_maxDist_ge (ivs : List (ℕ × ℝ)) (st : ScanState) :
    st.maxDist ≤ (ivs.foldl scanStep st).maxDist := by
  induction ivs generalizing st with
  | nil => exact le_refl _
  | cons iv ivs ih =>
    refine le_trans ?_ (ih (scanStep st iv))
    unfold scanStep
    split_ifs with h1 h2
    · exact le_refl _
    · exact le_of_lt h2
    · exact le_refl _

theorem scanStep_min_cases (st : ScanState) (iv : ℕ × ℝ) :
    ((scanStep st iv).minDist = st.minDist ∧ (scanStep st iv).minId = st.minId) ∨
    ((scanStep st iv).minDist = iv.2 ∧ (scanStep st iv).minId = iv.1) := by
  unfold scanStep
  split_ifs with h1 h2
  · exact Or.inr ⟨rfl, rfl⟩
  · exact Or.inl ⟨rfl, rfl⟩
  · exact Or.inl ⟨rfl, rfl⟩

theorem scanStep_max_cases (st : ScanState) (iv : ℕ × ℝ) :
    ((scanStep st iv).maxDist = st.maxDist ∧ (scanStep st iv).maxId = st.maxId) ∨
    ((scanStep st iv).maxDist = iv.2 ∧ (scanStep st iv).maxId = iv.1) := by
  unfold scanStep
  split_ifs with h1 h2
  · exact Or.inl ⟨rfl, rfl⟩
  · exact Or.inr ⟨rfl, rfl⟩
  · exact Or.inl ⟨rfl, rfl⟩

theorem scan_min_attain (ivs : List (ℕ × ℝ)) (st : ScanState) :
    ((ivs.foldl scanStep st).minDist = st.minDist ∧
      (ivs.foldl scanStep st).minId = st.minId) ∨
    ∃ iv ∈ ivs, (ivs.foldl scanStep st).minDist = iv.2 ∧
      (ivs.foldl scanStep st).minId = iv.1 := by
  induction ivs generalizing st with
  | nil => exact Or.inl ⟨rfl, rfl⟩
  | cons iv ivs ih =>
    rw [List.foldl_cons]
    rcases ih (scanStep st iv) with h | ⟨iv', hmem, h1, h2⟩
    · rcases scanStep_min_cases st iv with hc | hc
      · exact Or.inl ⟨h.1.trans hc.1, h.2.trans hc.2⟩
      · exact Or.inr ⟨iv, List.mem_cons_self .., h.1.trans hc.1, h.2.trans hc.2⟩
    · exact Or.inr ⟨iv', List.mem_cons_of_mem _ hmem, h1, h2⟩

theorem scan_max_attain (ivs : List (ℕ × ℝ)) (st : ScanState) :
    ((ivs.foldl scanStep st).maxDist = st.maxDist ∧
      (ivs.foldl scanStep st).maxId = st.maxId) ∨
    ∃ iv ∈ ivs, (ivs.foldl scanStep st).maxDist = iv.2 ∧
      (ivs.foldl scanStep st).maxId = iv.1 := by
  induction ivs generalizing st with
  | nil => exact Or.inl ⟨rfl, rfl⟩
  | cons iv ivs ih =>
    rw [List.foldl_cons]
    rcases ih (scanStep st iv) with h | ⟨iv', hmem, h1, h2⟩
    · rcases scanStep_max_cases st iv with hc | hc
      · exact Or.inl ⟨h.1.trans hc.1, h.2.trans hc.2⟩
      · exact Or.inr ⟨iv, List.mem_cons_self .., h.1.trans hc.1, h.2.trans hc.2⟩
    · exact Or.inr ⟨iv', List.mem_cons_of_mem _ hmem, h1, h2⟩

theorem scan_min_le_all (ivs : List (ℕ × ℝ)) (st : ScanState) :
    ∀ iv ∈ ivs, (ivs.foldl scanStep st).minDist ≤ iv.2 := by
  induction ivs generalizing st with
  | nil => intro iv h; cases h
  | cons iv' ivs ih =>
    intro iv hmem
    rcases List.mem_cons.mp hmem with rfl | h
    · refine le_trans (scan_minDist_le ivs (scanStep st iv)) ?_
      unfold scanStep
      split_ifs with h1 h2
      · exact le_refl _
      · exact le_of_not_lt h1
      · exact le_of_not_lt h1
    · exact ih (scanStep st iv') iv h

theorem scanStep_inv {st : ScanState} (h : st.minDist ≤ st.maxDist)
    (iv : ℕ × ℝ) : (scanStep st iv).minDist ≤ (scanStep st iv).maxDist := by
  unfold scanStep
  split_ifs with h1 h2
  · exact le_trans (le_of_lt h1) h
  · exact le_trans h (le_of_lt h2)
  · exact h

theorem scan_max_ge_all (ivs : List (ℕ × ℝ)) (st : ScanState)
    (hst : st.minDist ≤ st.maxDist) :
    ∀ iv ∈ ivs, iv.2 ≤ (ivs.foldl scanStep st).maxDist := by
  induction ivs generalizing st with
  | nil => intro iv h; cases h
  | cons iv' ivs ih =>
    intro iv hmem
    rcases List.mem_cons.mp hmem with rfl | h
    · refine le_trans ?_ (scan_maxDist_ge ivs (scanStep st iv))
      unfold scanStep
      split_ifs with h1 h2
      · exact le_trans (le_of_lt h1) hst
      · exact le_refl _
      · exact le_of_not_lt h2
    · exact ih (scanStep st iv') (scanStep_inv hst iv') iv h

theorem getExtent_fresh_success {l : LinePrimitive} (minMax : List Vec3)
    {cloud : List PointPrimitive} {threshold : ℝ} {indices : Option (List ℕ)}
    (hcache : l.extents = none)
    (he : l.inlierIds cloud threshold indices ≠ []) :
    l.getExtent minMax cloud threshold indices =
      (EXIT_SUCCESS,
       [(l.onLineCloud cloud threshold indices).getD
          (l.scanState cloud threshold indices).minId default,
        (l.onLineCloud cloud threshold indices).getD
          (l.scanState cloud threshold indices).maxId default],
       { l with extents := some [(l.onLineCloud cloud threshold indices).getD
                   (l.scanState cloud threshold indices).minId default,
                 (l.onLineCloud cloud threshold indices).getD
                   (l.scanState cloud threshold indices).maxId default] }) := by
  unfold LinePrimitive.getExtent
  rw [hcache]
  rw [if_neg he]

theorem getExtent_fresh_failure {l : LinePrimitive} (minMax : List Vec3)
    {cloud : List PointPrimitive} {threshold : ℝ} {indices : Option (List ℕ)}
    (hcache : l.extents = none)
    (he : l.inlierIds cloud threshold indices = []) :
    l.getExtent minMax cloud threshold indices = (EXIT_FAILURE, minMax, l) := by
  unfold LinePrimitive.getExtent
  rw [hcache]
  rw [if_pos he]

theorem extentVal_zero (l : LinePrimitive) (cloud : List PointPrimitive)
    (threshold : ℝ) (indices : Option (List ℕ)) :
    l.extentVal cloud threshold indices 0 = 0 := by
  unfold LinePrimitive.extentVal
  exact Vec3.sub_self_dot _ _

theorem scanState_min_spec (l : LinePrimitive) (cloud : List PointPrimitive)
    (threshold : ℝ) (indices : Option (List ℕ))
    (hn : 0 < (l.onLineCloud cloud threshold indices).length) :
    (l.scanState cloud threshold indices).minId <
      (l.onLineCloud cloud threshold indices).length ∧
    ∀ i < (l.onLineCloud cloud threshold indices).length,
      l.extentVal cloud threshold indices
        (l.scanState cloud threshold indices).minId ≤
      l.extentVal cloud threshold indices i := by
  set n := (l.onLineCloud cloud threshold indices).length with hn'
  set vals : ℕ → ℝ := l.extentVal cloud threshold indices with hvals
  set ivs := (List.range' 1 (n - 1)).map (fun i => (i, vals i)) with hivs
  have hmem : ∀ i, 1 ≤ i → i < n → (i, vals i) ∈ ivs := by
    intro i h1 h2
    rw [hivs]
    exact List.mem_map.mpr ⟨i, List.mem_range'_1.mpr ⟨h1, by omega⟩, rfl⟩
  have hattain := scan_min_attain ivs ⟨0, 0, 0, 0⟩
  have hle := scan_minDist_le ivs ⟨0, 0, 0, 0⟩
  have hall := scan_min_le_all ivs ⟨0, 0, 0, 0⟩
  have hstid : l.scanState cloud threshold indices = ivs.foldl scanStep ⟨0, 0, 0, 0⟩ := by
    rw [LinePrimitive.scanState]
  rw [hstid]
  set st := ivs.foldl scanStep ⟨0, 0, 0, 0⟩ with hst
  have hv0 : vals 0 = 0 := by
    rw [hvals]
    exact extentVal_zero l cloud threshold indices
  have hminval : st.minDist = vals st.minId ∧ st.minId < n := by
    rcases hattain with ⟨h1, h2⟩ | ⟨iv, hiv, h1, h2⟩
    · rw [h1, h2]
      exact ⟨by rw [hv0], hn⟩
    · rcases List.mem_map.mp hiv with ⟨i, hi, rfl⟩
      rcases List.mem_range'_1.mp hi with ⟨hi1, hi2⟩
      rw [h1, h2]
      exact ⟨rfl, by omega⟩
  refine ⟨hminval.2, ?_⟩
  intro i hi
  rw [← hminval.1]
  rcases Nat.eq_zero_or_pos i with rfl | hipos
  · rw [hv0]
    exact hle
  · exact hall (i, vals i) (hmem i hipos hi)

theorem scanState_max_spec (l : LinePrimitive) (cloud : List PointPrimitive)
    (threshold : ℝ) (indices : Option (List ℕ))
    (hn : 0 < (l.onLineCloud cloud threshold indices).length) :
    (l.scanState cloud threshold indices).maxId <
      (l.onLineCloud cloud threshold indices).length ∧
    ∀ i < (l.onLineCloud cloud threshold indices).length,
      l.extentVal cloud threshold indices i ≤
      l.extentVal cloud threshold indices
        (l.scanState cloud threshold indices).maxId := by
  set n := (l.onLineCloud cloud threshold indices).length with hn'
  set vals : ℕ → ℝ := l.extentVal cloud threshold indices with hvals
  set ivs := (List.range' 1 (n - 1)).map (fun i => (i, vals i)) with hivs
  have hmem : ∀ i, 1 ≤ i → i < n → (i, vals i) ∈ ivs := by
    intro i h1 h2
    rw [hivs]
    exact List.mem_map.mpr ⟨i, List.mem_range'_1.mpr ⟨h1, by omega⟩, rfl⟩
  have hattain := scan_max_attain ivs ⟨0, 0, 0, 0⟩
  have hge := scan_maxDist_ge ivs ⟨0, 0, 0, 0⟩
  have hall := scan_max_ge_all ivs ⟨0, 0, 0, 0⟩ (le_refl 0)
  have hstid : l.scanState cloud threshold indices = ivs.foldl scanStep ⟨0, 0, 0, 0⟩ := by
    rw [LinePrimitive.scanState]
  rw [hstid]
  set st := ivs.foldl scanStep ⟨0, 0, 0, 0⟩ with hst
  have hv0 : vals 0 = 0 := by
    rw [hvals]
    exact extentVal_zero l cloud threshold indices
  have hmaxval : st.maxDist = vals st.maxId ∧ st.maxId < n := by
    rcases hattain with ⟨h1, h2⟩ | ⟨iv, hiv, h1, h2⟩
    · rw [h1, h2]
      exact ⟨by rw [hv0], hn⟩
    · rcases List.mem_map.mp hiv with ⟨i, hi, rfl⟩
      rcases List.mem_range'_1.mp hi with ⟨hi1, hi2⟩
      rw [h1, h2]
      exact ⟨rfl, by omega⟩
  refine ⟨hmaxval.2, ?_⟩
  intro i hi
  rw [← hmaxval.1]
  rcases Nat.eq_zero_or_pos i with rfl | hipos
  · rw [hv0]
    exact hge
  · exact hall (i, vals i) (hmem i hipos hi)

/-- Claim C4: with an unpopulated extent cache, `getExtent` selects exactly the
points whose point-to-line distance is strictly below the threshold, fails with
the `NoInliers` code `EXIT_FAILURE` exactly when that subset is empty, and
otherwise returns the two orthogonal projections of inliers attaining the
minimum and the maximum of the scan value
`dot(p_i - p_0, p_0 + direction)` relative to the first projected point. -/
theorem getExtent_inlier_extent_spec
    (l : LinePrimitive) (minMax : List Vec3) (cloud : List PointPrimitive)
    (threshold : ℝ) (indices : Option (List ℕ))
    (hcache : l.extents = none) :
    ((l.getExtent minMax cloud threshold indices).1 = EXIT_FAILURE ↔
      l.inlierIds cloud threshold indices = []) ∧
    (∀ pid, pid ∈ l.inlierIds cloud threshold none ↔
      pid < cloud.length ∧ l.getDistance (pointPos cloud pid) < threshold) ∧
    (l.onLineCloud cloud threshold indices =
      (l.inlierIds cloud threshold indices).map
        (fun pid => l.projectPoint (pointPos cloud pid))) ∧
    (l.inlierIds cloud threshold indices ≠ [] →
      ∃ mi ma, mi < (l.onLineCloud cloud threshold indices).length ∧
        ma < (l.onLineCloud cloud threshold indices).length ∧
        (l.getExtent minMax cloud threshold indices).2.1 =
          [(l.onLineCloud cloud threshold indices).getD mi default,
           (l.onLineCloud cloud threshold indices).getD ma default] ∧
        ∀ i < (l.onLineCloud cloud threshold indices).length,
          l.extentVal cloud threshold indices mi ≤
            l.extentVal cloud threshold indices i ∧
          l.extentVal cloud threshold indices i ≤
            l.extentVal cloud threshold indices ma) := by
  refine ⟨?_, ?_, rfl, ?_⟩
  · by_cases he : l.inlierIds cloud threshold indices = []
    · rw [getExtent_fresh_failure minMax hcache he]
      simp [he]
    · rw [getExtent_fresh_success minMax hcache he]
      simp [he, EXIT_SUCCESS, EXIT_FAILURE]
  · intro pid
    unfold LinePrimitive.inlierIds
    simp only [List.mem_filter, List.mem_map, List.mem_range, decide_eq_true_eq]
    constructor
    · rintro ⟨⟨i, hi, rfl⟩, hd⟩
      exact ⟨by simpa [pidAt] using hi, by simpa [pidAt] using hd⟩
    · rintro ⟨hlen, hd⟩
      exact ⟨⟨pid, hlen, rfl⟩, by simpa [pidAt] using hd⟩
  · intro he
    have hn : 0 < (l.onLineCloud cloud threshold indices).length := by
      unfold LinePrimitive.onLineCloud
      rw [List.length_map]
      exact List.length_pos.mpr he
    obtain ⟨hmi, hminall⟩ := scanState_min_spec l cloud threshold indices hn
    obtain ⟨hma, hmaxall⟩ := scanState_max_spec l cloud threshold indices hn
    refine ⟨(l.scanState cloud threshold indices).minId,
            (l.scanState cloud threshold indices).maxId, hmi, hma, ?_, ?_⟩
    · rw [getExtent_fresh_success minMax hcache he]
    · intro i hi
      exact ⟨hminall i hi, hmaxall i hi⟩

/-- Witness for claim C4 at a concrete primitive with an unpopulated cache. -/
theorem getExtent_inlier_extent_spec_witness :
    (⟨⟨0, 0, 0⟩, ⟨1, 0, 0⟩, 0, 0, 0, none⟩ : LinePrimitive).extents = none ∧
    (((⟨⟨0, 0, 0⟩, ⟨1, 0, 0⟩, 0, 0, 0, none⟩ : LinePrimitive).getExtent
        [] [] 1 none).1 = EXIT_FAILURE ↔
      (⟨⟨0, 0, 0⟩, ⟨1, 0, 0⟩, 0, 0, 0, none⟩ : LinePrimitive).inlierIds
        [] 1 none = []) :=
  ⟨rfl, (getExtent_inlier_extent_spec _ [] [] 1 none rfl).1⟩

/-- Claim C7: once the extent cache has been populated by a successful
`getExtent` call, every subsequent call returns the identical cached endpoint
pair with the success code and leaves the primitive unchanged, regardless of
the point set, threshold or indices passed to it. -/
theorem getExtent_write_once
    (l l' : LinePrimitive) (minMax out : List Vec3) (cloud : List PointPrimitive)
    (threshold : ℝ) (indices : Option (List ℕ))
    (hsucc : l.getExtent minMax cloud threshold indices = (EXIT_SUCCESS, out, l')) :
    ∀ (minMax2 : List Vec3) (cloud2 : List PointPrimitive) (threshold2 : ℝ)
      (indices2 : Option (List ℕ)),
      l'.getExtent minMax2 cloud2 threshold2 indices2 = (EXIT_SUCCESS, out, l') := by
  intro minMax2 cloud2 threshold2 indices2
  exact getExtent_of_cache (getExtent_success_cache hsucc) minMax2 cloud2 threshold2 indices2

/-- Witness for claim C7: a concrete successful call (via a populated cache)
followed by a second call with entirely different arguments. -/
theorem getExtent_write_once_witness :
    (⟨⟨0, 0, 0⟩, ⟨1, 0, 0⟩, 0, 0, 0, some [⟨0, 0, 0⟩, ⟨2, 0, 0⟩]⟩
        : LinePrimitive).getExtent [] [] 1 none =
      (EXIT_SUCCESS, [⟨0, 0, 0⟩, ⟨2, 0, 0⟩],
       ⟨⟨0, 0, 0⟩, ⟨1, 0, 0⟩, 0, 0, 0, some [⟨0, 0, 0⟩, ⟨2, 0, 0⟩]⟩) ∧
    (⟨⟨0, 0, 0⟩, ⟨1, 0, 0⟩, 0, 0, 0, some [⟨0, 0, 0⟩, ⟨2, 0, 0⟩]⟩
        : LinePrimitive).getExtent [⟨5, 5, 5⟩] [⟨⟨9, 9, 9⟩, 3, 3⟩] 7 (some [0]) =
      (EXIT_SUCCESS, [⟨0, 0, 0⟩, ⟨2, 0, 0⟩],
       ⟨⟨0, 0, 0⟩, ⟨1, 0, 0⟩, 0, 0, 0, some [⟨0, 0, 0⟩, ⟨2, 0, 0⟩]⟩) :=
  ⟨rfl, getExtent_write_once
    ⟨⟨0, 0, 0⟩, ⟨1, 0, 0⟩, 0, 0, 0, some [⟨0, 0, 0⟩, ⟨2, 0, 0⟩]⟩
    ⟨⟨0, 0, 0⟩, ⟨1, 0, 0⟩, 0, 0, 0, some [⟨0, 0, 0⟩, ⟨2, 0, 0⟩]⟩
    [] [⟨0, 0, 0⟩, ⟨2, 0, 0⟩] [] 1 none rfl
    [⟨5, 5, 5⟩] [⟨⟨9, 9, 9⟩, 3, 3⟩] 7 (some [0])⟩

/-- Claim C10: when the cache is unpopulated and no inlier is found,
`getExtent` returns the failure code, leaves the output endpoint container
unchanged, leaves the cache unpopulated, and a subsequent call (e.g. with a
larger threshold) computes exactly as a fresh call on the original primitive. -/
theorem getExtent_failure_leaves_state
    (l : LinePrimitive) (minMax : List Vec3) (cloud : List PointPrimitive)
    (threshold : ℝ) (indices : Option (List ℕ))
    (hcache : l.extents = none)
    (hempty : l.inlierIds cloud threshold indices = []) :
    l.getExtent minMax cloud threshold indices = (EXIT_FAILURE, minMax, l) ∧
    ((l.getExtent minMax cloud threshold indices).2.2).extents = none ∧
    ∀ (minMax2 : List Vec3) (threshold2 : ℝ),
      ((l.getExtent minMax cloud threshold indices).2.2).getExtent
          minMax2 cloud threshold2 indices =
        l.getExtent minMax2 cloud threshold2 indices := by
  have h := getExtent_fresh_failure minMax hcache hempty
  refine ⟨h, ?_, ?_⟩
  · rw [h]
    exact hcache
  · intro minMax2 threshold2
    rw [h]

/-- Witness for claim C10 on a concrete empty cloud. -/
theorem getExtent_failure_leaves_state_witness :
    (⟨⟨0, 0, 0⟩, ⟨1, 0, 0⟩, 0, 0, 0, none⟩ : LinePrimitive).extents = none ∧
    (⟨⟨0, 0, 0⟩, ⟨1, 0, 0⟩, 0, 0, 0, none⟩ : LinePrimitive).inlierIds [] 1 none = [] ∧
    (⟨⟨0, 0, 0⟩, ⟨1, 0, 0⟩, 0, 0, 0, none⟩ : LinePrimitive).getExtent [] [] 1 none =
      (EXIT_FAILURE, [], ⟨⟨0, 0, 0⟩, ⟨1, 0, 0⟩, 0, 0, 0, none⟩) :=
  ⟨rfl, rfl, (getExtent_failure_leaves_state _ [] [] 1 none rfl rfl).1⟩

/-- Claim C1 (evidence of the code bug): on an empty significance population
the `-1` sentinel written by the empty branch is unconditionally overwritten by
the following `setConstant(0)`, so the caller observes `(eigenvalue, 0, 0)` and
never a negative sentinel.  Here the primitive has `GID = 7`, the point set is
empty (so the derived population is empty), and the abstracted eigenvalue is
`4`: the result is `(4, 0, 0)`, every coordinate non-negative. -/
theorem getSpatialSignificance_empty_population_no_sentinel :
    LinePrimitive.getSpatialSignificance (fun _ _ => 4)
      ⟨⟨0, 0, 0⟩, ⟨1, 0, 0⟩, 7, 0, 0, none⟩ ⟨5, 5, 5⟩ [] none true = ⟨4, 0, 0⟩ ∧
    0 ≤ (LinePrimitive.getSpatialSignificance (fun _ _ => 4)
      ⟨⟨0, 0, 0⟩, ⟨1, 0, 0⟩, 7, 0, 0, none⟩ ⟨5, 5, 5⟩ [] none true).x ∧
    0 ≤ (LinePrimitive.getSpatialSignificance (fun _ _ => 4)
      ⟨⟨0, 0, 0⟩, ⟨1, 0, 0⟩, 7, 0, 0, none⟩ ⟨5, 5, 5⟩ [] none true).y ∧
    0 ≤ (LinePrimitive.getSpatialSignificance (fun _ _ => 4)
      ⟨⟨0, 0, 0⟩, ⟨1, 0, 0⟩, 7, 0, 0, none⟩ ⟨5, 5, 5⟩ [] none true).z := by
  have h : LinePrimitive.getSpatialSignificance (fun _ _ => 4)
      ⟨⟨0, 0, 0⟩, ⟨1, 0, 0⟩, 7, 0, 0, none⟩ ⟨5, 5, 5⟩ [] none true = ⟨4, 0, 0⟩ := rfl
  refine ⟨h, ?_, ?_, ?_⟩ <;> norm_num [h]

/-- Claim C6: the candidate generated by `generateFrom` carries `GID` from
`self`, `DIR_GID` from `other`, and `STATUS = UNSET`; the function reports
success. -/
theorem generateFrom_tag_propagation
    (self other : LinePrimitive) (closestAngleId : ℕ) (angles : List ℝ)
    (angleMultiplier : ℝ) (hid : closestAngleId < angles.length) :
    (self.generateFrom other closestAngleId angles angleMultiplier).2.gid = self.gid ∧
    (self.generateFrom other closestAngleId angles angleMultiplier).2.dirGid = other.dirGid ∧
    (self.generateFrom other closestAngleId angles angleMultiplier).2.status = UNSET ∧
    (self.generateFrom other closestAngleId angles angleMultiplier).1 = true :=
  ⟨rfl, rfl, rfl, rfl⟩

/-- Witness for claim C6 on concrete primitives and a singleton angle set. -/
theorem generateFrom_tag_propagation_witness :
    0 < [(0 : ℝ)].length ∧
    ((⟨⟨0, 0, 0⟩, ⟨0, 1, 0⟩, 2, 3, 4, none⟩ : LinePrimitive).generateFrom
        ⟨⟨1, 1, 1⟩, ⟨1, 0, 0⟩, 5, 6, 7, none⟩ 0 [0] 1).2.gid = 2 ∧
    ((⟨⟨0, 0, 0⟩, ⟨0, 1, 0⟩, 2, 3, 4, none⟩ : LinePrimitive).generateFrom
        ⟨⟨1, 1, 1⟩, ⟨1, 0, 0⟩, 5, 6, 7, none⟩ 0 [0] 1).2.dirGid = 6 := by
  have h := generateFrom_tag_propagation
    ⟨⟨0, 0, 0⟩, ⟨0, 1, 0⟩, 2, 3, 4, none⟩
    ⟨⟨1, 1, 1⟩, ⟨1, 0, 0⟩, 5, 6, 7, none⟩ 0 [0] 1 (by norm_num)
  exact ⟨by norm_num, h.1, h.2.1⟩

/-- Claim C5: the candidate's direction is unit length, and its angular
distance to `self`'s direction is at most the angular distance of either
rotation branch (in particular of the non-chosen one) to `self`'s direction. -/
theorem generateFrom_direction_tie_break
    (self other : LinePrimitive) (closestAngleId : ℕ) (angles : List ℝ)
    (angleMultiplier : ℝ) (hdir : other.dir.norm = 1)
    (hid : closestAngleId < angles.length) :
    (self.generateFrom other closestAngleId angles angleMultiplier).2.dir.norm = 1 ∧
    angleInRad (self.generateFrom other closestAngleId angles angleMultiplier).2.dir
        self.dir ≤
      angleInRad (Vec3.rotZ (angles.getD closestAngleId 0 * angleMultiplier)
        other.dir) self.dir ∧
    angleInRad (self.generateFrom other closestAngleId angles angleMultiplier).2.dir
        self.dir ≤
      angleInRad (Vec3.rotZ (-(angles.getD closestAngleId 0 * angleMultiplier))
        other.dir) self.dir := by
  set a := angles.getD closestAngleId 0 * angleMultiplier with ha
  set d0 := Vec3.rotZ a other.dir with hd0
  set d1 := Vec3.rotZ (-a) other.dir with hd1
  have hn0 : d0.norm = 1 := by rw [hd0, Vec3.rotZ_norm, hdir]
  have hn1 : d1.norm = 1 := by rw [hd1, Vec3.rotZ_norm, hdir]
  have hout : (self.generateFrom other closestAngleId angles angleMultiplier).2.dir =
      (if angleInRad self.dir d0 > angleInRad self.dir d1 then d1 else d0).normalized := rfl
  by_cases hc : angleInRad self.dir d0 > angleInRad self.dir d1
  · have hsel : (self.generateFrom other closestAngleId angles angleMultiplier).2.dir = d1 := by
      rw [hout, if_pos hc, Vec3.normalized_of_norm_one hn1]
    refine ⟨by rw [hsel, hn1], ?_, ?_⟩
    · rw [hsel, angleInRad_comm d1 self.dir, angleInRad_comm d0 self.dir]
      exact le_of_lt hc
    · rw [hsel]
  · have hsel : (self.generateFrom other closestAngleId angles angleMultiplier).2.dir = d0 := by
      rw [hout, if_neg hc, Vec3.normalized_of_norm_one hn0]
    refine ⟨by rw [hsel, hn0], ?_, ?_⟩
    · rw [hsel]
    · rw [hsel, angleInRad_comm d0 self.dir, angleInRad_comm d1 self.dir]
      exact le_of_not_lt hc

/-- Witness for claim C5 with a unit-direction `other` and a singleton angle
set. -/
theorem generateFrom_direction_tie_break_witness :
    (⟨⟨1, 1, 1⟩, ⟨1, 0, 0⟩, 5, 6, 7, none⟩ : LinePrimitive).dir.norm = 1 ∧
    0 < [(0 : ℝ)].length ∧
    ((⟨⟨0, 0, 0⟩, ⟨0, 1, 0⟩, 2, 3, 4, none⟩ : LinePrimitive).generateFrom
        ⟨⟨1, 1, 1⟩, ⟨1, 0, 0⟩, 5, 6, 7, none⟩ 0 [0] 1).2.dir.norm = 1 := by
  have h : (⟨⟨1, 1, 1⟩, ⟨1, 0, 0⟩, 5, 6, 7, none⟩ : LinePrimitive).dir.norm = 1 := by
    show Vec3.norm ⟨1, 0, 0⟩ = 1
    unfold Vec3.norm Vec3.dot
    norm_num
  exact ⟨h, by norm_num,
    (generateFrom_direction_tie_break ⟨⟨0, 0, 0⟩, ⟨0, 1, 0⟩, 2, 3, 4, none⟩
      ⟨⟨1, 1, 1⟩, ⟨1, 0, 0⟩, 5, 6, 7, none⟩ 0 [0] 1 h (by norm_num)).1⟩

theorem drawLoop_allfail (cloud : List PointPrimitive) (idx : Option (List ℕ))
    (p : LinePrimitive) (hcache : p.extents = none) :
    ∀ (j it : ℕ) (r0 : ℝ), it + j = 10 → 1 ≤ j →
      (∀ k, k < j → p.inlierIds cloud (r0 * 2 ^ k) idx = []) →
      drawLoop cloud idx p [] r0 it = (EXIT_FAILURE, [], 10, p) := by
  intro j
  induction j with
  | zero =>
    intro it r0 h1 h2 h3
    omega
  | succ jn ih =>
    intro it r0 h1 h2 hfail
    have h0 : p.inlierIds cloud r0 idx = [] := by
      have := hfail 0 (Nat.succ_pos jn)
      simpa using this
    rw [drawLoop]
    rw [getExtent_fresh_failure [] hcache h0]
    rcases Nat.eq_zero_or_pos jn with rfl | hjn
    · have h9 : it = 9 := by omega
      subst h9
      norm_num
    · have hlt : it + 1 < 10 := by omega
      have hfail' : ∀ k, k < jn → p.inlierIds cloud ((r0 * 2) * 2 ^ k) idx = [] := by
        intro k hk
        have hval := hfail (k + 1) (by omega)
        have heq : r0 * 2 * 2 ^ k = r0 * 2 ^ (k + 1) := by ring
        rw [heq]
        exact hval
      have hrec := ih (it + 1) (r0 * 2) (by omega) (by omega) hfail'
      simpa [hlt] using hrec

theorem drawLoop_it_le (cloud : List PointPrimitive) (idx : Option (List ℕ)) :
    ∀ (j it : ℕ), 10 - it ≤ j → it < 10 →
      ∀ (p : LinePrimitive) (mm : List Vec3) (r : ℝ),
        (drawLoop cloud idx p mm r it).2.2.1 ≤ 10 := by
  intro j
  induction j with
  | zero =>
    intro it h1 h2
    omega
  | succ jn ih =>
    intro it h1 h2 p mm r
    rw [drawLoop]
    by_cases hlen : (p.getExtent mm cloud r idx).2.1.length < 2
    · rw [if_pos hlen]
      by_cases hit : it + 1 < 10
      · rw [if_pos hit]
        exact ih (it + 1) (by omega) hit _ _ (r * 2)
      · rw [if_neg hit]
        show it + 1 ≤ 10
        omega
    · rw [if_neg hlen]
      show it ≤ 10
      omega

/-- Claim C2 counterexample: on a primitive with unit direction and an empty
cloud every extent attempt fails, and the fallback segment actually drawn runs
from the position to position plus one tenth of the direction — its length is
`1/10`, not `1`, so the synthetic segment is not unit length. -/
theorem draw_fallback_not_unit_length :
    ((⟨⟨0, 0, 0⟩, ⟨1, 0, 0⟩, 0, 0, 0, none⟩ : LinePrimitive).draw [] 1 none 1).2 =
      [⟨0, 0, 0⟩, ⟨1 / 10, 0, 0⟩] ∧
    ((⟨1 / 10, 0, 0⟩ : Vec3) - ⟨0, 0, 0⟩).norm = 1 / 10 ∧
    (1 / 10 : ℝ) ≠ 1 := by
  have hloop := drawLoop_allfail [] none ⟨⟨0, 0, 0⟩, ⟨1, 0, 0⟩, 0, 0, 0, none⟩
    rfl 10 0 1 rfl (by norm_num) (fun k hk => rfl)
  refine ⟨?_, ?_, by norm_num⟩
  · unfold LinePrimitive.draw
    rw [hloop]
    norm_num [Vec3.ext_iff']
  · unfold Vec3.norm Vec3.dot
    simp only [Vec3.sub_def]
    norm_num
    rw [show (100 : ℝ) = 10 ^ 2 by norm_num, Real.sqrt_sq (by norm_num : (0 : ℝ) ≤ 10)]
    norm_num

/-- Claim C2 (amended): the retry loop of `draw` doubles the threshold after
each failed attempt and makes at most 10 attempts; if every attempt fails it
degrades to the synthetic segment from the position to position plus one tenth
of the direction (length `‖dir‖/10`, not unit length) and still draws it. -/
theorem draw_retry_cap_and_fallback
    (p : LinePrimitive) (cloud : List PointPrimitive) (idx : Option (List ℕ))
    (radius : ℝ)
    (hcache : p.extents = none)
    (hempty : ∀ k, k < 10 → p.inlierIds cloud (radius * 2 ^ k) idx = []) :
    drawLoop cloud idx p [] radius 0 = (EXIT_FAILURE, [], 10, p) ∧
    (p.draw cloud radius idx 1).2 = [p.pos, p.pos + (10 : ℝ)⁻¹ • p.dir] ∧
    ∀ (q : LinePrimitive) (mm : List Vec3) (r : ℝ),
      (drawLoop cloud idx q mm r 0).2.2.1 ≤ 10 := by
  have hloop := drawLoop_allfail cloud idx p hcache 10 0 radius rfl (by norm_num) hempty
  refine ⟨hloop, ?_, ?_⟩
  · unfold LinePrimitive.draw
    rw [hloop]
    norm_num [Vec3.ext_iff']
  · intro q mm r
    exact drawLoop_it_le cloud idx 10 0 (by norm_num) (by norm_num) q mm r

/-- Witness for the amended claim C2 on a concrete primitive and an empty
cloud (every hypothesis holds definitionally there). -/
theorem draw_retry_cap_and_fallback_witness :
    (⟨⟨0, 0, 0⟩, ⟨2, 0, 0⟩, 0, 0, 0, none⟩ : LinePrimitive).extents = none ∧
    drawLoop [] none ⟨⟨0, 0, 0⟩, ⟨2, 0, 0⟩, 0, 0, 0, none⟩ [] 3 0 =
      (EXIT_FAILURE, [], 10, ⟨⟨0, 0, 0⟩, ⟨2, 0, 0⟩, 0, 0, 0, none⟩) :=
  ⟨rfl, (draw_retry_cap_and_fallback ⟨⟨0, 0, 0⟩, ⟨2, 0, 0⟩, 0, 0, 0, none⟩
    [] none 3 rfl (fun k hk => rfl)).1⟩

/-! Lemmas about the greedy assignment scan. -/

theorem greedy_mem_not_taken :
    ∀ (l : List CostEntry) (tA tB : List GidLid) (q : GidLid × GidLid),
      q ∈ greedy tA tB l → q.1 ∉ tA ∧ q.2 ∉ tB := by
  intro l
  induction l with
  | nil =>
    intro tA tB q h
    cases h
  | cons e rest ih =>
    intro tA tB q hq
    by_cases hc : e.2.1 ∉ tA ∧ e.2.2 ∉ tB
    · rw [greedy, if_pos hc] at hq
      rcases List.mem_cons.mp hq with rfl | h
      · exact hc
      · have h2 := ih _ _ q h
        exact ⟨fun hA => h2.1 (List.mem_cons_of_mem _ hA),
               fun hB => h2.2 (List.mem_cons_of_mem _ hB)⟩
    · rw [greedy, if_neg hc] at hq
      exact ih _ _ q hq

theorem greedy_nodup :
    ∀ (l : List CostEntry) (tA tB : List GidLid),
      ((greedy tA tB l).map Prod.fst).Nodup ∧
      ((greedy tA tB l).map Prod.snd).Nodup := by
  intro l
  induction l with
  | nil =>
    intro tA tB
    constructor <;> simp [greedy]
  | cons e rest ih =>
    intro tA tB
    by_cases hc : e.2.1 ∉ tA ∧ e.2.2 ∉ tB
    · rw [greedy, if_pos hc]
      have ihr := ih (e.2.1 :: tA) (e.2.2 :: tB)
      constructor
      · rw [List.map_cons, List.nodup_cons]
        refine ⟨?_, ihr.1⟩
        intro hmem
        rcases List.mem_map.mp hmem with ⟨q, hq, hq1⟩
        exact (greedy_mem_not_taken rest _ _ q hq).1 (hq1 ▸ List.mem_cons_self ..)
      · rw [List.map_cons, List.nodup_cons]
        refine ⟨?_, ihr.2⟩
        intro hmem
        rcases List.mem_map.mp hmem with ⟨q, hq, hq1⟩
        exact (greedy_mem_not_taken rest _ _ q hq).2 (hq1 ▸ List.mem_cons_self ..)
    · rw [greedy, if_neg hc]
      exact ih tA tB

theorem greedy_skip_conflict :
    ∀ (l : List CostEntry) (tA tB : List GidLid) (e : CostEntry),
      e ∈ l → (e.2.1, e.2.2) ∉ greedy tA tB l →
      e.2.1 ∈ tA ∨ e.2.2 ∈ tB ∨
        ∃ q ∈ greedy tA tB l, q.1 = e.2.1 ∨ q.2 = e.2.2 := by
  intro l
  induction l with
  | nil =>
    intro tA tB e he
    cases he
  | cons f rest ih =>
    intro tA tB e he hnot
    by_cases hc : f.2.1 ∉ tA ∧ f.2.2 ∉ tB
    · rw [greedy, if_pos hc] at hnot ⊢
      rcases List.mem_cons.mp he with rfl | hmem
      · exact absurd (List.mem_cons_self ..) hnot
      · have hnot' : (e.2.1, e.2.2) ∉ greedy (f.2.1 :: tA) (f.2.2 :: tB) rest :=
          fun h => hnot (List.mem_cons_of_mem _ h)
        rcases ih (f.2.1 :: tA) (f.2.2 :: tB) e hmem hnot' with h | h | ⟨q, hq, hor⟩
        · rcases List.mem_cons.mp h with h1 | h1
          · exact Or.inr (Or.inr ⟨(f.2.1, f.2.2), List.mem_cons_self .., Or.inl h1.symm⟩)
          · exact Or.inl h1
        · rcases List.mem_cons.mp h with h1 | h1
          · exact Or.inr (Or.inr ⟨(f.2.1, f.2.2), List.mem_cons_self .., Or.inr h1.symm⟩)
          · exact Or.inr (Or.inl h1)
        · exact Or.inr (Or.inr ⟨q, List.mem_cons_of_mem _ hq, hor⟩)
    · rw [greedy, if_neg hc] at hnot ⊢
      rcases List.mem_cons.mp he with rfl | hmem
      · rcases Decidable.not_and_iff_or_not.mp hc with h | h
        · exact Or.inl (Decidable.not_not.mp h)
        · exact Or.inr (Or.inl (Decidable.not_not.mp h))
      · exact ih tA tB e hmem hnot

/-! Lemmas about the sorted association-list model of std::map. -/

theorem mapInsert_mem {α β : Type} (lt : α → α → Prop) [DecidableRel lt]
    [DecidableEq α] (k : α) (v : β) :
    ∀ (m : List (α × β)) (x : α × β), x ∈ mapInsert lt k v m → x = (k, v) ∨ x ∈ m := by
  intro m
  induction m with
  | nil =>
    intro x hx
    rcases List.mem_singleton.mp hx with rfl
    exact Or.inl rfl
  | cons kv rest ih =>
    intro x hx
    rw [mapInsert] at hx
    split_ifs at hx with h1 h2
    · exact List.mem_cons.mp hx
    · rcases List.mem_cons.mp hx with rfl | h
      · exact Or.inl rfl
      · exact Or.inr (List.mem_cons_of_mem _ h)
    · rcases List.mem_cons.mp hx with rfl | h
      · exact Or.inr (List.mem_cons_self ..)
      · rcases ih x h with h3 | h3
        · exact Or.inl h3
        · exact Or.inr (List.mem_cons_of_mem _ h3)

theorem mapInsert_keys {α β : Type} (lt : α → α → Prop) [DecidableRel lt]
    [DecidableEq α] (k : α) (v : β) :
    ∀ (m : List (α × β)) (x : α), x ∈ (mapInsert lt k v m).map Prod.fst →
      x = k ∨ x ∈ m.map Prod.fst := by
  intro m x hx
  rcases List.mem_map.mp hx with ⟨q, hq, rfl⟩
  rcases mapInsert_mem lt k v m q hq with rfl | h
  · exact Or.inl rfl
  · exact Or.inr (List.mem_map_of_mem _ h)

theorem mapInsert_sorted {α β : Type} (lt : α → α → Prop) [DecidableRel lt]
    [DecidableEq α]
    (htri : ∀ a b : α, lt a b ∨ a = b ∨ lt b a)
    (htr : ∀ a b c : α, lt a b → lt b c → lt a c)
    (k : α) (v : β) :
    ∀ (m : List (α × β)), ((m.map Prod.fst).Pairwise lt) →
      (((mapInsert lt k v m).map Prod.fst).Pairwise lt) := by
  intro m
  induction m with
  | nil =>
    intro hs
    simp [mapInsert]
  | cons kv rest ih =>
    intro hs
    rw [List.map_cons, List.pairwise_cons] at hs
    obtain ⟨hhead, hrest⟩ := hs
    rw [mapInsert]
    split_ifs with h1 h2
    · rw [List.map_cons, List.map_cons, List.pairwise_cons]
      refine ⟨?_, List.pairwise_cons.mpr ⟨hhead, hrest⟩⟩
      intro x hx
      rcases List.mem_cons.mp hx with rfl | hx2
      · exact h1
      · exact htr _ _ _ h1 (hhead x hx2)
    · subst h2
      rw [List.map_cons, List.pairwise_cons]
      exact ⟨hhead, hrest⟩
    · rw [List.map_cons, List.pairwise_cons]
      constructor
      · intro x hx
        rcases mapInsert_keys lt k v rest x hx with rfl | hx2
        · rcases htri x kv.1 with h | h | h
          · exact absurd h h1
          · exact absurd h h2
          · exact h
        · exact hhead x hx2
      · exact ih hrest

theorem mapInsert_perm_fresh {α β : Type} (lt : α → α → Prop) [DecidableRel lt]
    [DecidableEq α] (k : α) (v : β) :
    ∀ (m : List (α × β)), k ∉ m.map Prod.fst →
      (mapInsert lt k v m).Perm ((k, v) :: m) := by
  intro m
  induction m with
  | nil =>
    intro hfresh
    exact List.Perm.refl _
  | cons kv rest ih =>
    intro hfresh
    rw [List.map_cons] at hfresh
    rw [mapInsert]
    split_ifs with h1 h2
    · exact List.Perm.refl _
    · exact absurd (h2 ▸ List.mem_cons_self ..) hfresh
    · refine List.Perm.trans (List.Perm.cons kv (ih ?_)) (List.Perm.swap ..)
      intro h
      exact hfresh (List.mem_cons_of_mem _ h)

theorem foldl_mapInsert_mem {α β : Type} (lt : α → α → Prop) [DecidableRel lt]
    [DecidableEq α] :
    ∀ (entries : List (α × β)) (m : List (α × β)) (x : α × β),
      x ∈ entries.foldl (fun acc kv => mapInsert lt kv.1 kv.2 acc) m →
      x ∈ m ∨ x ∈ entries := by
  intro entries
  induction entries with
  | nil =>
    intro m x hx
    exact Or.inl hx
  | cons kv rest ih =>
    intro m x hx
    rw [List.foldl_cons] at hx
    rcases ih _ x hx with h | h
    · rcases mapInsert_mem lt kv.1 kv.2 m x h with rfl | h2
      · exact Or.inr (List.mem_cons_self ..)
      · exact Or.inl h2
    · exact Or.inr (List.mem_cons_of_mem _ h)

theorem foldl_mapInsert_perm {α β : Type} (lt : α → α → Prop) [DecidableRel lt]
    [DecidableEq α] :
    ∀ (ps : List (α × β)) (m : List (α × β)),
      (ps.map Prod.fst).Nodup →
      (∀ q ∈ ps, q.1 ∉ m.map Prod.fst) →
      (ps.foldl (fun acc q => mapInsert lt q.1 q.2 acc) m).Perm (m ++ ps) := by
  intro ps
  induction ps with
  | nil =>
    intro m hnod hfresh
    simp
  | cons p ps ih =>
    intro m hnod hfresh
    rw [List.map_cons, List.nodup_cons] at hnod
    rw [List.foldl_cons]
    have hmk : (mapInsert lt p.1 p.2 m).Perm ((p.1, p.2) :: m) :=
      mapInsert_perm_fresh lt p.1 p.2 m (hfresh p (List.mem_cons_self ..))
    have hfresh' : ∀ q ∈ ps, q.1 ∉ (mapInsert lt p.1 p.2 m).map Prod.fst := by
      intro q hq hmem
      rcases mapInsert_keys lt p.1 p.2 m q.1 hmem with h | h
      · exact hnod.1 (h ▸ List.mem_map_of_mem _ hq)
      · exact hfresh q (List.mem_cons_of_mem _ hq) h
    have hrec := ih (mapInsert lt p.1 p.2 m) hnod.2 hfresh'
    refine hrec.trans ?_
    have h2 : ((mapInsert lt p.1 p.2 m) ++ ps).Perm (((p.1, p.2) :: m) ++ ps) :=
      hmk.append_right ps
    refine h2.trans ?_
    have h3 : (p.1, p.2) = p := rfl
    rw [h3]
    exact (List.perm_middle).symm

theorem foldl_mapInsert_sorted {α β : Type} (lt : α → α → Prop) [DecidableRel lt]
    [DecidableEq α]
    (htri : ∀ a b : α, lt a b ∨ a = b ∨ lt b a)
    (htr : ∀ a b c : α, lt a b → lt b c → lt a c) :
    ∀ (ps : List (α × β)) (m : List (α × β)),
      ((m.map Prod.fst).Pairwise lt) →
      (((ps.foldl (fun acc q => mapInsert lt q.1 q.2 acc) m).map Prod.fst).Pairwise lt) := by
  intro ps
  induction ps with
  | nil =>
    intro m hs
    exact hs
  | cons p ps ih =>
    intro m hs
    rw [List.foldl_cons]
    exact ih _ (mapInsert_sorted lt htri htr p.1 p.2 m hs)

/-! Order facts for the identity and cost-entry orderings. -/

theorem gidLidLt_trichot (a b : GidLid) : gidLidLt a b ∨ a = b ∨ gidLidLt b a := by
  unfold gidLidLt
  rw [Prod.ext_iff]
  omega

theorem gidLidLt_trans {a b c : GidLid} (h1 : gidLidLt a b) (h2 : gidLidLt b c) :
    gidLidLt a c := by
  unfold gidLidLt at h1 h2 ⊢
  omega

theorem costKeyLt_trichot (a b : CostKey) : costKeyLt a b ∨ a = b ∨ costKeyLt b a := by
  unfold costKeyLt gidLidLt
  simp only [Prod.ext_iff]
  omega

theorem costKeyLt_trans {a b c : CostKey} (h1 : costKeyLt a b) (h2 : costKeyLt b c) :
    costKeyLt a c := by
  unfold costKeyLt gidLidLt at h1 h2 ⊢
  rw [Prod.ext_iff] at h1 h2 ⊢
  omega

instance : IsTotal CostEntry costEntryLe := by
  constructor
  intro a b
  unfold costEntryLe
  rcases lt_trichotomy a.1 b.1 with h | h | h
  · exact Or.inl (Or.inl h)
  · rcases costKeyLt_trichot a.2 b.2 with h2 | h2 | h2
    · exact Or.inl (Or.inr ⟨h, Or.inl h2⟩)
    · exact Or.inl (Or.inr ⟨h, Or.inr h2⟩)
    · exact Or.inr (Or.inr ⟨h.symm, Or.inl h2⟩)
  · exact Or.inr (Or.inl h)

instance : IsTrans CostEntry costEntryLe := by
  constructor
  intro a b c h1 h2
  unfold costEntryLe at h1 h2 ⊢
  rcases h1 with h1 | ⟨h1e, h1k⟩
  · rcases h2 with h2 | ⟨h2e, h2k⟩
    · exact Or.inl (lt_trans h1 h2)
    · exact Or.inl (h2e ▸ h1)
  · rcases h2 with h2 | ⟨h2e, h2k⟩
    · exact Or.inl (h1e ▸ h2)
    · refine Or.inr ⟨h1e.trans h2e, ?_⟩
      rcases h1k with h1k | h1k
      · rcases h2k with h2k | h2k
        · exact Or.inl (costKeyLt_trans h1k h2k)
        · exact Or.inl (h2k ▸ h1k)
      · rcases h2k with h2k | h2k
        · exact Or.inl (h1k ▸ h2k)
        · exact Or.inr (h1k.trans h2k)

/-! Lookup lemmas for the correspondence pipeline. -/

theorem find?_gid_of_nodup :
    ∀ (A : PrimitiveMap), (A.map Prod.fst).Nodup →
      ∀ ga ∈ A, A.find? (fun x => decide (x.1 = ga.1)) = some ga := by
  intro A
  induction A with
  | nil =>
    intro hnod ga hga
    cases hga
  | cons h rest ih =>
    intro hnod ga hga
    rw [List.map_cons, List.nodup_cons] at hnod
    rcases List.mem_cons.mp hga with rfl | hmem
    · exact List.find?_cons_of_pos _ (by simp)
    · have hne : ¬ (h.1 = ga.1) := by
        intro heq
        exact hnod.1 (heq ▸ List.mem_map_of_mem _ hmem)
      rw [List.find?_cons_of_neg _ (by simpa using hne)]
      exact ih hnod.2 ga hmem

theorem primAt_of_mem {A : PrimitiveMap} (hA : (A.map Prod.fst).Nodup)
    {ga : ℤ × List LinePrimitive} (hga : ga ∈ A) {la : ℕ × LinePrimitive}
    (hla : la ∈ ga.2.enum) : primAt A (ga.1, la.1) = some la.2 := by
  unfold primAt
  rw [find?_gid_of_nodup A hA ga hga]
  exact List.mem_enum_iff_get?.mp hla

/-- Claim C8: the greedy scan yields a both-sided injective matching — no
identity appears twice as an A-key nor twice as a B-key — and a scanned pair is
accepted unless one of its identities conflicts with an accepted pair. -/
theorem greedy_matching_injective (A B : PrimitiveMap) (points : List PointPrimitive) :
    ((acceptedPairs A B points).map Prod.fst).Nodup ∧
    ((acceptedPairs A B points).map Prod.snd).Nodup ∧
    ∀ e ∈ sortedCostList A B points,
      (e.2.1, e.2.2) ∈ acceptedPairs A B points ∨
      ∃ q ∈ acceptedPairs A B points, q.1 = e.2.1 ∨ q.2 = e.2.2 := by
  have h1 := greedy_nodup (sortedCostList A B points) [] []
  refine ⟨h1.1, h1.2, ?_⟩
  intro e he
  by_cases hin : (e.2.1, e.2.2) ∈ acceptedPairs A B points
  · exact Or.inl hin
  · rcases greedy_skip_conflict (sortedCostList A B points) [] [] e he hin with h | h | h
    · cases h
    · cases h
    · exact Or.inr h

/-- Claim C9: every entry of the sorted candidate list stores as cost exactly
the Euclidean distance between the two primitives' anchor positions at its
identity key, and the list is sorted ascending by cost with ties broken by the
natural ordering of the identity-pair key. -/
theorem costList_cost_and_sorted (A B : PrimitiveMap) (points : List PointPrimitive)
    (hA : (A.map Prod.fst).Nodup) (hB : (B.map Prod.fst).Nodup) :
    (∀ e ∈ sortedCostList A B points,
      ∃ a b, primAt A e.2.1 = some a ∧ primAt B e.2.2 = some b ∧
        e.1 = (a.pos - b.pos).norm) ∧
    List.Sorted costEntryLe (sortedCostList A B points) := by
  constructor
  · intro e he
    have he1 : e ∈ costList A B points := by
      unfold sortedCostList at he
      exact (List.perm_insertionSort costEntryLe (costList A B points)).mem_iff.mp he
    unfold costList at he1
    rcases List.mem_map.mp he1 with ⟨kv, hkv, rfl⟩
    have hkv2 : kv ∈ costWrites A B points := by
      unfold costMap at hkv
      rcases foldl_mapInsert_mem costKeyLt (costWrites A B points) [] kv hkv with h | h
      · cases h
      · exact h
    unfold costWrites at hkv2
    obtain ⟨ga, hga, h2⟩ := List.mem_flatMap.mp hkv2
    obtain ⟨la, hla, h3⟩ := List.mem_flatMap.mp h2
    obtain ⟨gb, hgb, h4⟩ := List.mem_flatMap.mp h3
    obtain ⟨lb, hlb, h5⟩ := List.mem_map.mp h4
    refine ⟨la.2, lb.2, ?_, ?_, ?_⟩
    · rw [← h5]
      exact primAt_of_mem hA hga hla
    · rw [← h5]
      exact primAt_of_mem hB hgb hlb
    · rw [← h5]
      rfl
  · exact List.sorted_insertionSort costEntryLe (costList A B points)

/-- Witness for claim C9 on singleton collections with distinct group ids. -/
theorem costList_cost_and_sorted_witness :
    (([((0 : ℤ), [(⟨⟨0, 0, 0⟩, ⟨1, 0, 0⟩, 0, 0, 0, none⟩ : LinePrimitive)])]).map
        Prod.fst).Nodup ∧
    (([((2 : ℤ), [(⟨⟨3, 0, 0⟩, ⟨1, 0, 0⟩, 2, 0, 0, none⟩ : LinePrimitive)])]).map
        Prod.fst).Nodup ∧
    List.Sorted costEntryLe
      (sortedCostList
        [((0 : ℤ), [(⟨⟨0, 0, 0⟩, ⟨1, 0, 0⟩, 0, 0, 0, none⟩ : LinePrimitive)])]
        [((2 : ℤ), [(⟨⟨3, 0, 0⟩, ⟨1, 0, 0⟩, 2, 0, 0, none⟩ : LinePrimitive)])] []) :=
  ⟨by simp, by simp,
   (costList_cost_and_sorted
     [((0 : ℤ), [(⟨⟨0, 0, 0⟩, ⟨1, 0, 0⟩, 0, 0, 0, none⟩ : LinePrimitive)])]
     [((2 : ℤ), [(⟨⟨3, 0, 0⟩, ⟨1, 0, 0⟩, 2, 0, 0, none⟩ : LinePrimitive)])] []
     (by simp) (by simp)).2⟩

/-- Claim C3 (amended): the emission loop walks the assignment map in
ascending A-side identity order, so the emitted rows are the accepted pairs
re-sorted by their A-key — a permutation of the acceptance-ordered list, not
the acceptance order itself. -/
theorem emittedRows_sorted_by_A_key (A B : PrimitiveMap) (points : List PointPrimitive) :
    List.Sorted gidLidLt ((emittedRows A B points).map Prod.fst) ∧
    (emittedRows A B points).Perm (acceptedPairs A B points) := by
  unfold emittedRows corresps
  constructor
  · exact foldl_mapInsert_sorted gidLidLt gidLidLt_trichot
      (fun a b c h1 h2 => gidLidLt_trans h1 h2)
      (acceptedPairs A B points) [] (by simp)
  · have hperm := foldl_mapInsert_perm gidLidLt (acceptedPairs A B points) []
      (greedy_nodup _ [] []).1 (by intro q hq; simp)
    simpa using hperm

/-- Example primitive for the emission-order counterexample (A side, group 0). -/
def exA0 : LinePrimitive := ⟨⟨0, 0, 0⟩, ⟨1, 0, 0⟩, 0, 0, 0, none⟩

/-- Example primitive for the emission-order counterexample (A side, group 1). -/
def exA1 : LinePrimitive := ⟨⟨1, 0, 0⟩, ⟨1, 0, 0⟩, 1, 0, 0, none⟩

/-- Example primitive for the emission-order counterexample (B side, group 0). -/
def exB0 : LinePrimitive := ⟨⟨1, 0, 0⟩, ⟨1, 0, 0⟩, 0, 0, 0, none⟩

/-- Example primitive for the emission-order counterexample (B side, group 1). -/
def exB1 : LinePrimitive := ⟨⟨4, 0, 0⟩, ⟨1, 0, 0⟩, 1, 0, 0, none⟩

/-- Example A collection: two groups with one primitive each. -/
def exampleA : PrimitiveMap := [(0, [exA0]), (1, [exA1])]

/-- Example B collection: two groups with one primitive each. -/
def exampleB : PrimitiveMap := [(0, [exB0]), (1, [exB1])]

theorem estimateDistance_xaxis (p q : LinePrimitive) (pts : List PointPrimitive)
    (g1 g2 : ℤ) (x y : ℝ) (hp : p.pos = ⟨x, 0, 0⟩) (hq : q.pos = ⟨y, 0, 0⟩) :
    estimateDistance p q pts g1 g2 = |x - y| := by
  unfold estimateDistance Vec3.norm Vec3.dot
  rw [hp, hq]
  simp only [Vec3.sub_def]
  rw [show (x - y) * (x - y) + ((0 : ℝ) - 0) * ((0 : ℝ) - 0) +
      ((0 : ℝ) - 0) * ((0 : ℝ) - 0) = (x - y) ^ 2 by ring]
  exact Real.sqrt_sq_eq_abs _

/-- Claim C3 counterexample: with two primitives on each side placed so that
the cheapest pair uses the larger A-identity, the greedy scan accepts
`(1,0) -> (0,0)` first and `(0,0) -> (1,0)` second, but the emitted rows come
out in A-key (map) order — the reverse — so emission is not in acceptance
(ascending cost) order. -/
theorem corresps_emission_order_counterexample :
    acceptedPairs exampleA exampleB [] =
      [(((1 : ℤ), (0 : ℕ)), ((0 : ℤ), (0 : ℕ))),
       (((0 : ℤ), (0 : ℕ)), ((1 : ℤ), (0 : ℕ)))] ∧
    emittedRows exampleA exampleB [] =
      [(((0 : ℤ), (0 : ℕ)), ((1 : ℤ), (0 : ℕ))),
       (((1 : ℤ), (0 : ℕ)), ((0 : ℤ), (0 : ℕ)))] ∧
    emittedRows exampleA exampleB [] ≠ acceptedPairs exampleA exampleB [] := by
  have e1 : estimateDistance exA0 exB0 [] 0 0 = 1 := by
    rw [estimateDistance_xaxis exA0 exB0 [] 0 0 0 1 rfl rfl]
    norm_num
  have e2 : estimateDistance exA0 exB1 [] 0 0 = 4 := by
    rw [estimateDistance_xaxis exA0 exB1 [] 0 0 0 4 rfl rfl]
    norm_num
  have e3 : estimateDistance exA1 exB0 [] 0 0 = 0 := by
    rw [estimateDistance_xaxis exA1 exB0 [] 0 0 1 1 rfl rfl]
    norm_num
  have e4 : estimateDistance exA1 exB1 [] 0 0 = 3 := by
    rw [estimateDistance_xaxis exA1 exB1 [] 0 0 1 4 rfl rfl]
    norm_num
  have hw : costWrites exampleA exampleB [] =
      [((((0 : ℤ), (0 : ℕ)), ((0 : ℤ), (0 : ℕ))), estimateDistance exA0 exB0 [] 0 0),
       ((((0 : ℤ), (0 : ℕ)), ((1 : ℤ), (0 : ℕ))), estimateDistance exA0 exB1 [] 0 0),
       ((((1 : ℤ), (0 : ℕ)), ((0 : ℤ), (0 : ℕ))), estimateDistance exA1 exB0 [] 0 0),
       ((((1 : ℤ), (0 : ℕ)), ((1 : ℤ), (0 : ℕ))), estimateDistance exA1 exB1 [] 0 0)] := rfl
  rw [e1, e2, e3, e4] at hw
  have hm : costMap exampleA exampleB [] =
      [((((0 : ℤ), (0 : ℕ)), ((0 : ℤ), (0 : ℕ))), (1 : ℝ)),
       ((((0 : ℤ), (0 : ℕ)), ((1 : ℤ), (0 : ℕ))), (4 : ℝ)),
       ((((1 : ℤ), (0 : ℕ)), ((0 : ℤ), (0 : ℕ))), (0 : ℝ)),
       ((((1 : ℤ), (0 : ℕ)), ((1 : ℤ), (0 : ℕ))), (3 : ℝ))] := by
    unfold costMap
    rw [hw]
    norm_num [mapInsert, costKeyLt, gidLidLt, Prod.ext_iff]
  have hl : costList exampleA exampleB [] =
      [((1 : ℝ), (((0 : ℤ), (0 : ℕ)), ((0 : ℤ), (0 : ℕ)))),
       ((4 : ℝ), (((0 : ℤ), (0 : ℕ)), ((1 : ℤ), (0 : ℕ)))),
       ((0 : ℝ), (((1 : ℤ), (0 : ℕ)), ((0 : ℤ), (0 : ℕ)))),
       ((3 : ℝ), (((1 : ℤ), (0 : ℕ)), ((1 : ℤ), (0 : ℕ))))] := by
    unfold costList
    rw [hm]
    rfl
  have hs : sortedCostList exampleA exampleB [] =
      [((0 : ℝ), (((1 : ℤ), (0 : ℕ)), ((0 : ℤ), (0 : ℕ)))),
       ((1 : ℝ), (((0 : ℤ), (0 : ℕ)), ((0 : ℤ), (0 : ℕ)))),
       ((3 : ℝ), (((1 : ℤ), (0 : ℕ)), ((1 : ℤ), (0 : ℕ)))),
       ((4 : ℝ), (((0 : ℤ), (0 : ℕ)), ((1 : ℤ), (0 : ℕ))))] := by
    unfold sortedCostList
    rw [hl]
    norm_num [List.insertionSort, List.orderedInsert, costEntryLe, costKeyLt,
      gidLidLt, Prod.ext_iff]
  have hacc : acceptedPairs exampleA exampleB [] =
      [(((1 : ℤ), (0 : ℕ)), ((0 : ℤ), (0 : ℕ))),
       (((0 : ℤ), (0 : ℕ)), ((1 : ℤ), (0 : ℕ)))] := by
    unfold acceptedPairs
    rw [hs]
    norm_num [greedy, Prod.ext_iff]
  have hem : emittedRows exampleA exampleB [] =
      [(((0 : ℤ), (0 : ℕ)), ((1 : ℤ), (0 : ℕ))),
       (((1 : ℤ), (0 : ℕ)), ((0 : ℤ), (0 : ℕ)))] := by
    unfold emittedRows corresps
    rw [hacc]
    norm_num [mapInsert, gidLidLt, Prod.ext_iff]
  refine ⟨hacc, hem, ?_⟩
  rw [hacc, hem]
  simp

end










